import Mathlib

/-!
Verification of the stego-tool LSB steganography core.

Shallow embedding of `src/tools/image_stego.py`, `src/tools/audio_stego.py`
and `src/tools/encryption.py`.

Modelling conventions:
* A decoded carrier (the flattened RGB channel array of an image, or the raw
  PCM byte buffer of an audio segment) is a `List Nat` of byte-valued slots.
* Python `bytes` values are `List Nat` with every element `< 256`.
* A Python bit string such as `''.join(f"{byte:08b}" ...)` is a `List Nat`
  whose elements are the bits `0`/`1`, most-significant bit of each byte first.
* Fallible operations return `Except String α`; the string is the exception
  message.  Operations that mutate a buffer and can raise before mutating
  return the pair (buffer state at exit, status), so that "no partial write"
  is expressible.
* Python floats are modelled as `ℚ` (the detector's arithmetic is exact at
  the values the claims mention).
-/

set_option maxRecDepth 40000

namespace Stego

/-- Bits of one byte, most significant first: Python `f"{b:08b}"` for `b < 256`. -/
def byteBits (b : Nat) : List Nat :=
  (List.range 8).map (fun i => b / 2 ^ (7 - i) % 2)

/-- Bit stream of a byte sequence, byte order preserved, MSB-first per byte:
Python `''.join(f"{byte:08b}" for byte in bs)`. -/
def bitsOfBytes : List Nat → List Nat
  | [] => []
  | b :: bs => byteBits b ++ bitsOfBytes bs

/-- Python `int(bits, 2)` on a nonempty string of `'0'`/`'1'` characters. -/
def bitsToNat (bits : List Nat) : Nat :=
  bits.foldl (fun acc b => 2 * acc + b) 0

/-- Python `n.to_bytes(4, 'big')` for `n < 2^32` (it raises `OverflowError`
for larger `n`; callers model that branch explicitly). -/
def toBytesBE4 (n : Nat) : List Nat :=
  [n / 2 ^ 24 % 256, n / 2 ^ 16 % 256, n / 2 ^ 8 % 256, n % 256]

/-- numpy uint8 `(v & 0xFE) | bit` for `bit ∈ {0,1}`:
clear the LSB of a byte and install `b` there. -/
def setLsb (v b : Nat) : Nat := v % 256 / 2 * 2 + b

/-- The framed bit stream both carriers embed:
`''.join(f"{byte:08b}" for byte in len(data).to_bytes(4, 'big') + data)`. -/
def frameBits (data : List Nat) : List Nat :=
  bitsOfBytes (toBytesBE4 data.length ++ data)

/-- Python `bytes(int(bits[i:i+8], 2) for i in range(0, len(bits), 8))`:
pack a bit list into bytes, 8 bits per byte MSB first; a trailing chunk
shorter than 8 bits still yields one (small) byte, as `int` accepts it. -/
def chunkBytes (bits : List Nat) : List Nat :=
  if h : bits = [] then []
  else bitsToNat (bits.take 8) :: chunkBytes (bits.drop 8)
termination_by bits.length
decreasing_by
  have hpos : 0 < bits.length := List.length_pos.mpr h
  simp only [List.length_drop]
  omega

/-! ## Image carrier adapter (`src/tools/image_stego.py`) -/

/-- Function `calculate_image_capacity`: `(width * height * 3) // 8 - 4` (an `Int`,
since the Python value is negative for tiny images). -/
def calculate_image_capacity (w h : Nat) : Int :=
  ((w * h * 3 / 8 : Nat) : Int) - 4

/-- Core of `hide_data` (image), after the cover is decoded to the flattened
RGB slot list `slots` (length `w*h*3`).  Returns the slot buffer at exit and
the status: the capacity check and the `to_bytes` overflow both raise before
the write loop touches any slot.  `bits.ljust(total_pixels, '0')` pads the
bit string with zeros up to the slot count, and the loop writes every one of
those bits (the guard `pixel_idx < len(flat_array)` truncates any excess). -/
def hide_data (w h : Nat) (slots data : List Nat) :
    List Nat × Except String Unit :=
  if (data.length : Int) > calculate_image_capacity w h then
    (slots, .error ("Data too large: " ++ toString data.length ++
      " bytes exceeds capacity of " ++
      toString (calculate_image_capacity w h) ++ " bytes"))
  else if 2 ^ 32 ≤ data.length then
    (slots, .error "int too big to convert")
  else
    let padded := frameBits data ++
      List.replicate (slots.length - (frameBits data).length) 0
    (List.zipWith setLsb slots padded, .ok ())

/-- The 32-bit header value image extraction parses from a carrier:
`int(bits[:32], 2)` over the slot LSBs, as a Python `int`. -/
def imgParsedLen (slots : List Nat) : Int :=
  (bitsToNat ((slots.map (· % 2)).take 32) : Int)

/-- Core of `extract_data` (image) on the flattened slot list of a `w × h`
RGB stego image.  `int('', 2)` on a zero-pixel image raises `ValueError`. -/
def extract_data (w h : Nat) (slots : List Nat) : Except String (List Nat) :=
  if slots = [] then .error "invalid literal for int with base 2"
  else
    let bits := slots.map (· % 2)
    let length := imgParsedLen slots
    if length < 0 ∨ length > calculate_image_capacity w h then
      .error "Invalid data length detected"
    else
      let dataBits := (bits.drop 32).take (length.toNat * 8)
      if dataBits.length % 8 ≠ 0 then .error "Invalid data format"
      else .ok (chunkBytes dataBits)

/-- Mean LSB deviation used by `detect_anomalies`: `abs(np.mean(array & 1) - 0.5)`. -/
def imageDeviation (slots : List Nat) : ℚ :=
  |(((slots.map (· % 2)).sum : ℕ) : ℚ) / (slots.length : ℚ) - 1 / 2|

/-- Core of `detect_anomalies` (image): `(is_suspicious, deviation)`.
`np.mean` of an empty array is NaN, which never occurs for a decoded image
(PIL images have at least one pixel); theorems assume `slots ≠ []`. -/
def detect_anomalies (slots : List Nat) (threshold : ℚ) : Bool × ℚ :=
  (imageDeviation slots > threshold, imageDeviation slots)

/-- Exception type `StegoError`: the single exception type of the image adapter; it carries
only a message string. -/
structure StegoError where
  msg : String
deriving DecidableEq

/-- The public `hide_data`: the whole body runs inside
`try ... except Exception as e: raise StegoError(f"Failed to hide data: ...")`,
so every failure (including the capacity `StegoError` raised inside) is
re-raised as a `StegoError` whose message wraps the original one. -/
def hide_data_adapter (w h : Nat) (slots data : List Nat) :
    Except StegoError (List Nat) :=
  match hide_data w h slots data with
  | (out, .ok ()) => .ok out
  | (_, .error e) => .error ⟨"Failed to hide data: " ++ e⟩

/-- The public `extract_data`, wrapped the same way. -/
def extract_data_adapter (w h : Nat) (slots : List Nat) :
    Except StegoError (List Nat) :=
  match extract_data w h slots with
  | .ok d => .ok d
  | .error e => .error ⟨"Failed to extract data: " ++ e⟩

/-- The public `detect_anomalies`, wrapped the same way (the NaN-free,
nonempty case; decoding failures would surface as the wrapped message). -/
def detect_anomalies_adapter (slots : List Nat) (threshold : ℚ) :
    Except StegoError (Bool × ℚ) :=
  if slots = [] then .error ⟨"Failed to analyze image: empty array"⟩
  else .ok (detect_anomalies slots threshold)

/-! ## Audio carrier adapter (`src/tools/audio_stego.py`) -/

/-- Core of `hide_data_lsb` (audio) on the raw PCM byte buffer `raw`, after
the optional encryption step.  Python pads the bit string with
`'0' * (len(raw_data) - len(bits))` (empty when the payload is too long,
thanks to `str`'s clamping of a negative repeat count), then checks capacity
and only then runs the write loop over every bit. -/
def hide_data_lsb (raw data : List Nat) : List Nat × Except String Unit :=
  if 2 ^ 32 ≤ data.length then
    (raw, .error "int too big to convert")
  else
    let padded := frameBits data ++
      List.replicate (raw.length - (frameBits data).length) 0
    if padded.length > raw.length then
      (raw, .error "Insufficient audio capacity to hide data")
    else
      (List.zipWith setLsb raw padded, .ok ())

/-- Core of `extract_data_lsb` (audio): reads the 32-bit header from the
first 32 byte LSBs, then slices `raw_data[:32 + data_len*8]` — Python slicing
silently truncates when the buffer is shorter — and packs the bits after the
header into bytes.  No validation of the decoded length is performed.
`int('', 2)` on an empty buffer raises `ValueError`. -/
def extract_data_lsb (raw : List Nat) : Except String (List Nat) :=
  if raw = [] then .error "invalid literal for int with base 2"
  else
    let dataLen := bitsToNat ((raw.take 32).map (· % 2))
    let totalBits := 32 + dataLen * 8
    let bits := (raw.take totalBits).map (· % 2)
    .ok (chunkBytes (bits.drop 32))

/-- Mean LSB deviation of the audio detector: `abs(avg - 0.5)`. -/
def audioDeviation (raw : List Nat) : ℚ :=
  |(((raw.map (· % 2)).sum : ℕ) : ℚ) / (raw.length : ℚ) - 1 / 2|

/-- Audio `detect_anomalies_lsb`: returns only the boolean flag, with the
threshold fixed at `0.1`; `sum(...) / len(...)` raises `ZeroDivisionError`
on an empty buffer. -/
def detect_anomalies_lsb (raw : List Nat) : Except String Bool :=
  if raw = [] then .error "division by zero"
  else .ok (audioDeviation raw > 1 / 10)

/-! ## Encryption service (`src/tools/encryption.py`)

`encrypt_data`/`decrypt_data` call the `cryptography` library for PBKDF2 and
AES-256-CBC; those primitives are taken as explicit function parameters
(`derive`, `cbcEnc`, `cbcDec`), and the fresh 16-byte random `salt`/`iv`
(`secrets.token_bytes(16)`) are externalized as arguments.  All structure
the repository's own code adds — the emptiness check, PKCS#7 padding,
the `salt ++ iv ++ ciphertext` blob layout and its re-splitting — is
modelled concretely. -/

/-- Library `padding.PKCS7(128).padder()`: append `p` copies of the byte `p`,
`p = 16 - len % 16 ∈ [1, 16]`. -/
def pkcs7pad (data : List Nat) : List Nat :=
  let p := 16 - data.length % 16
  data ++ List.replicate p p

/-- Library `padding.PKCS7(128).unpadder()`: the last byte `p` must name a run of
`p` copies of itself, `1 ≤ p ≤ 16`, else the unpadder raises. -/
def pkcs7unpad (d : List Nat) : Except String (List Nat) :=
  match d.getLast? with
  | none => .error "Invalid padding bytes."
  | some p =>
    if 1 ≤ p ∧ p ≤ 16 ∧ p ≤ d.length ∧ (d.drop (d.length - p)).all (· = p) then
      .ok (d.take (d.length - p))
    else .error "Invalid padding bytes."

/-- Function `encrypt_data(password, data)`: reject empty password or data, derive the
key from the password and salt, PKCS#7-pad, encrypt with AES-256-CBC, and
return `salt ++ iv ++ ciphertext`. -/
def encrypt_data (cbcEnc : List Nat → List Nat → List Nat → List Nat)
    (derive : String → List Nat → List Nat)
    (password : String) (salt iv data : List Nat) : Except String (List Nat) :=
  if password = "" ∨ data = [] then
    .error "Password and data must not be empty"
  else
    let key := derive password salt
    .ok (salt ++ iv ++ cbcEnc key iv (pkcs7pad data))

/-- Function `decrypt_data(password, encrypted_data)`: reject blobs shorter than 32
bytes, split `salt ++ iv ++ ciphertext` at fixed offsets 16 and 32, derive
the key, decrypt, and strip the PKCS#7 padding. -/
def decrypt_data (cbcDec : List Nat → List Nat → List Nat → List Nat)
    (derive : String → List Nat → List Nat)
    (password : String) (blob : List Nat) : Except String (List Nat) :=
  if blob.length < 32 then .error "Invalid encrypted data format"
  else
    let salt := blob.take 16
    let iv := (blob.drop 16).take 16
    let ct := blob.drop 32
    let key := derive password salt
    pkcs7unpad (cbcDec key iv ct)

/-- Full `hide_data_lsb` (audio) with its optional `password` argument:
when a password is supplied the payload is first replaced by
`encrypt_data(password, data)`, and only then framed and embedded. -/
def hide_data_lsb_full (cbcEnc : List Nat → List Nat → List Nat → List Nat)
    (derive : String → List Nat → List Nat) (password : Option String)
    (salt iv raw data : List Nat) : List Nat × Except String Unit :=
  match password with
  | none => hide_data_lsb raw data
  | some pw =>
    match encrypt_data cbcEnc derive pw salt iv data with
    | .ok blob => hide_data_lsb raw blob
    | .error e => (raw, .error e)

/-- Full `extract_data_lsb` (audio) with its optional `password` argument:
the framed bytes are decoded first, and only then passed through
`decrypt_data` when a password is supplied. -/
def extract_data_lsb_full (cbcDec : List Nat → List Nat → List Nat → List Nat)
    (derive : String → List Nat → List Nat) (password : Option String)
    (raw : List Nat) : Except String (List Nat) :=
  match extract_data_lsb raw with
  | .error e => .error e
  | .ok d =>
    match password with
    | none => .ok d
    | some pw => decrypt_data cbcDec derive pw d

/-! ## Bit-codec lemmas -/

theorem byteBits_length (b : Nat) : (byteBits b).length = 8 := by
  simp [byteBits]

theorem bitsOfBytes_append (xs ys : List Nat) :
    bitsOfBytes (xs ++ ys) = bitsOfBytes xs ++ bitsOfBytes ys := by
  induction xs with
  | nil => simp [bitsOfBytes]
  | cons b bs ih => simp [bitsOfBytes, ih]

theorem bitsOfBytes_length (bs : List Nat) :
    (bitsOfBytes bs).length = 8 * bs.length := by
  induction bs with
  | nil => simp [bitsOfBytes]
  | cons b bs ih =>
    simp [bitsOfBytes, byteBits_length, ih]
    ring

theorem bitsOfBytes_lt_two (bs : List Nat) :
    ∀ x ∈ bitsOfBytes bs, x < 2 := by
  induction bs with
  | nil => simp [bitsOfBytes]
  | cons b bs ih =>
    intro x hx
    simp only [bitsOfBytes, List.mem_append] at hx
    rcases hx with hx | hx
    · simp only [byteBits, List.mem_map] at hx
      obtain ⟨i, _, rfl⟩ := hx
      exact Nat.mod_lt _ (by norm_num)
    · exact ih x hx

theorem setLsb_mod_two (v b : Nat) (hb : b < 2) : setLsb v b % 2 = b := by
  unfold setLsb
  omega

theorem map_mod_zipWith_setLsb (slots bits : List Nat)
    (hlen : bits.length = slots.length) (hlt : ∀ x ∈ bits, x < 2) :
    (List.zipWith setLsb slots bits).map (· % 2) = bits := by
  induction slots generalizing bits with
  | nil =>
    simp at hlen
    subst hlen
    simp
  | cons s ss ih =>
    cases bits with
    | nil => simp at hlen
    | cons b bs =>
      simp only [List.zipWith_cons_cons, List.map_cons, List.cons.injEq]
      exact ⟨setLsb_mod_two s b (hlt b (by simp)),
        ih bs (by simpa using hlen) (fun x hx => hlt x (by simp [hx]))⟩

theorem bitsToNat_foldl (ys : List Nat) (a : Nat) :
    ys.foldl (fun acc b => 2 * acc + b) a =
      a * 2 ^ ys.length + bitsToNat ys := by
  induction ys generalizing a with
  | nil => simp [bitsToNat]
  | cons y ys ih =>
    have hy : bitsToNat (y :: ys) = y * 2 ^ ys.length + bitsToNat ys := by
      show List.foldl (fun acc b => 2 * acc + b) (2 * 0 + y) ys = _
      rw [ih (2 * 0 + y)]
      norm_num
    simp only [List.foldl_cons, List.length_cons]
    rw [ih (2 * a + y), hy]
    ring

theorem bitsToNat_append (xs ys : List Nat) :
    bitsToNat (xs ++ ys) = bitsToNat xs * 2 ^ ys.length + bitsToNat ys := by
  unfold bitsToNat
  rw [List.foldl_append]
  exact bitsToNat_foldl ys _

theorem bitsToNat_byteBits (b : Nat) (hb : b < 256) :
    bitsToNat (byteBits b) = b := by
  have : byteBits b = [b / 128 % 2, b / 64 % 2, b / 32 % 2, b / 16 % 2,
      b / 8 % 2, b / 4 % 2, b / 2 % 2, b % 2] := by
    simp [byteBits, List.range_succ]
  rw [this]
  simp [bitsToNat, List.foldl]
  omega

theorem bitsToNat_header (n : Nat) (hn : n < 2 ^ 32) :
    bitsToNat (bitsOfBytes (toBytesBE4 n)) = n := by
  have h1 : n / 2 ^ 24 % 256 < 256 := Nat.mod_lt _ (by norm_num)
  have h2 : n / 2 ^ 16 % 256 < 256 := Nat.mod_lt _ (by norm_num)
  have h3 : n / 2 ^ 8 % 256 < 256 := Nat.mod_lt _ (by norm_num)
  have h4 : n % 256 < 256 := Nat.mod_lt _ (by norm_num)
  show bitsToNat (bitsOfBytes
    ([n / 2 ^ 24 % 256] ++ [n / 2 ^ 16 % 256] ++ [n / 2 ^ 8 % 256] ++ [n % 256])) = n
  rw [bitsOfBytes_append, bitsOfBytes_append, bitsOfBytes_append]
  have hsingle : ∀ b : Nat, bitsOfBytes [b] = byteBits b := by
    intro b; simp [bitsOfBytes]
  rw [hsingle, hsingle, hsingle, hsingle]
  rw [bitsToNat_append, bitsToNat_append, bitsToNat_append]
  rw [bitsToNat_byteBits _ h1, bitsToNat_byteBits _ h2,
      bitsToNat_byteBits _ h3, bitsToNat_byteBits _ h4]
  simp [byteBits_length]
  omega

theorem chunkBytes_nil : chunkBytes [] = [] := by
  unfold chunkBytes
  simp

theorem chunkBytes_bitsOfBytes (bs : List Nat) (hbs : ∀ b ∈ bs, b < 256) :
    chunkBytes (bitsOfBytes bs) = bs := by
  induction bs with
  | nil => simp [bitsOfBytes, chunkBytes_nil]
  | cons b rest ih =>
    have hne : bitsOfBytes (b :: rest) ≠ [] := by
      intro hcontra
      have := congrArg List.length hcontra
      simp [bitsOfBytes_length] at this
    rw [chunkBytes]
    simp only [hne, dif_neg, not_false_iff]
    have hbb : (byteBits b).length = 8 := byteBits_length b
    have htake : (bitsOfBytes (b :: rest)).take 8 = byteBits b := by
      show (byteBits b ++ bitsOfBytes rest).take 8 = byteBits b
      rw [← hbb, List.take_left]
    have hdrop : (bitsOfBytes (b :: rest)).drop 8 = bitsOfBytes rest := by
      show (byteBits b ++ bitsOfBytes rest).drop 8 = bitsOfBytes rest
      rw [← hbb, List.drop_left]
    rw [htake, hdrop, bitsToNat_byteBits b (hbs b (by simp)),
        ih (fun x hx => hbs x (by simp [hx]))]

theorem frameBits_eq (data : List Nat) :
    frameBits data = bitsOfBytes (toBytesBE4 data.length) ++ bitsOfBytes data := by
  unfold frameBits
  rw [bitsOfBytes_append]

theorem header_length (n : Nat) : (bitsOfBytes (toBytesBE4 n)).length = 32 := by
  rw [bitsOfBytes_length]
  simp [toBytesBE4]

theorem frameBits_length (data : List Nat) :
    (frameBits data).length = 32 + 8 * data.length := by
  unfold frameBits
  rw [bitsOfBytes_length]
  simp [toBytesBE4]
  ring

theorem frameBits_lt_two (data : List Nat) : ∀ x ∈ frameBits data, x < 2 :=
  bitsOfBytes_lt_two _

/-- Arithmetic consequence of the image capacity bound: a payload within
`(n // 8) - 4` bytes leaves the framed bit stream within the `n` slots. -/
theorem cap_arith (n dl : Nat) (hcap : (dl : Int) ≤ ((n / 8 : Nat) : Int) - 4) :
    32 + 8 * dl ≤ n ∧ 32 ≤ n := by
  have h1 : n / 8 * 8 ≤ n := Nat.div_mul_le_self n 8
  omega

/-- Shape of a successful image `hide_data`: the capacity and overflow
checks pass and every slot receives the corresponding padded frame bit. -/
theorem hide_data_ok (w h : Nat) (slots data : List Nat)
    (hcap : (data.length : Int) ≤ calculate_image_capacity w h)
    (h32 : data.length < 2 ^ 32) :
    hide_data w h slots data =
      (List.zipWith setLsb slots
        (frameBits data ++
          List.replicate (slots.length - (frameBits data).length) 0),
       .ok ()) := by
  unfold hide_data
  rw [if_neg (not_lt.mpr hcap), if_neg (not_le.mpr h32)]

/-- The LSB plane of the carrier produced by a successful image hide is
exactly the zero-padded frame bit stream. -/
theorem hide_data_lsb_plane (w h : Nat) (slots data : List Nat)
    (hslots : slots.length = w * h * 3)
    (hcap : (data.length : Int) ≤ calculate_image_capacity w h)
    (h32 : data.length < 2 ^ 32) :
    (hide_data w h slots data).fst.map (· % 2) =
      frameBits data ++
        List.replicate (slots.length - (frameBits data).length) 0 := by
  rw [hide_data_ok w h slots data hcap h32]
  have hfit : (frameBits data).length ≤ slots.length := by
    rw [frameBits_length, hslots]
    have := (cap_arith (w * h * 3) data.length
      (by unfold calculate_image_capacity at hcap; exact_mod_cast hcap)).1
    omega
  apply map_mod_zipWith_setLsb
  · rw [List.length_append, List.length_replicate]
    omega
  · intro x hx
    rcases List.mem_append.mp hx with hx | hx
    · exact frameBits_lt_two data x hx
    · rw [List.eq_of_mem_replicate hx]
      norm_num

/-- Round-trip for the image adapter, for any payload whose length respects
both the capacity bound and the 32-bit length header. -/
theorem image_roundtrip (w h : Nat) (slots data : List Nat)
    (hslots : slots.length = w * h * 3)
    (hbytes : ∀ b ∈ data, b < 256)
    (hcap : (data.length : Int) ≤ calculate_image_capacity w h)
    (h32 : data.length < 2 ^ 32) :
    (hide_data w h slots data).snd = .ok () ∧
    extract_data w h (hide_data w h slots data).fst = .ok data := by
  have hcap' : (data.length : Int) ≤ ((w * h * 3 / 8 : Nat) : Int) - 4 := by
    unfold calculate_image_capacity at hcap
    exact_mod_cast hcap
  obtain ⟨hfit32, hn32⟩ := cap_arith (w * h * 3) data.length hcap'
  have hfit : (frameBits data).length ≤ slots.length := by
    rw [frameBits_length, hslots]
    omega
  refine ⟨by rw [hide_data_ok w h slots data hcap h32], ?_⟩
  have hlsb := hide_data_lsb_plane w h slots data hslots hcap h32
  set stego := (hide_data w h slots data).fst with hstego
  have hlen : stego.length = slots.length := by
    have hc := congrArg List.length hlsb
    simp only [List.length_map, List.length_append, List.length_replicate] at hc
    omega
  have hne : ¬(stego = []) := by
    intro hcontra
    rw [hcontra] at hlen
    simp at hlen
    omega
  have hsplitmap : stego.map (· % 2) =
      bitsOfBytes (toBytesBE4 data.length) ++
        (bitsOfBytes data ++
          List.replicate (slots.length - (frameBits data).length) 0) := by
    rw [hlsb, frameBits_eq, List.append_assoc]
  have hparsed : imgParsedLen stego = (data.length : Int) := by
    unfold imgParsedLen
    rw [hsplitmap, List.take_left' (header_length data.length),
        bitsToNat_header data.length h32]
  have hcond : ¬(imgParsedLen stego < 0 ∨
      imgParsedLen stego > calculate_image_capacity w h) := by
    rw [hparsed]
    push_neg
    exact ⟨Int.natCast_nonneg _, hcap⟩
  have hdrop : (stego.map (· % 2)).drop 32 =
      bitsOfBytes data ++
        List.replicate (slots.length - (frameBits data).length) 0 := by
    rw [hsplitmap, List.drop_left' (header_length data.length)]
  have htonat : (imgParsedLen stego).toNat = data.length := by
    rw [hparsed]
    exact Int.toNat_natCast _
  have htake : (bitsOfBytes data ++
      List.replicate (slots.length - (frameBits data).length) 0).take
        (data.length * 8) = bitsOfBytes data := by
    apply List.take_left'
    rw [bitsOfBytes_length]
    ring
  simp only [extract_data]
  rw [if_neg hne, if_neg hcond, htonat, hdrop, htake]
  rw [if_neg (by rw [bitsOfBytes_length]; omega)]
  rw [chunkBytes_bitsOfBytes data hbytes]

/-- Shape of a successful audio `hide_data_lsb`. -/
theorem hide_data_lsb_ok (raw data : List Nat)
    (hfit : (frameBits data).length ≤ raw.length)
    (h32 : data.length < 2 ^ 32) :
    hide_data_lsb raw data =
      (List.zipWith setLsb raw
        (frameBits data ++
          List.replicate (raw.length - (frameBits data).length) 0),
       .ok ()) := by
  unfold hide_data_lsb
  rw [if_neg (not_le.mpr h32)]
  rw [if_neg (by
    rw [List.length_append, List.length_replicate]
    omega)]

/-- The LSB plane of the carrier produced by a successful audio hide is
exactly the zero-padded frame bit stream (identical to the image case). -/
theorem hide_data_lsb_plane_audio (raw data : List Nat)
    (hfit : (frameBits data).length ≤ raw.length)
    (h32 : data.length < 2 ^ 32) :
    (hide_data_lsb raw data).fst.map (· % 2) =
      frameBits data ++
        List.replicate (raw.length - (frameBits data).length) 0 := by
  rw [hide_data_lsb_ok raw data hfit h32]
  apply map_mod_zipWith_setLsb
  · rw [List.length_append, List.length_replicate]
    omega
  · intro x hx
    rcases List.mem_append.mp hx with hx | hx
    · exact frameBits_lt_two data x hx
    · rw [List.eq_of_mem_replicate hx]
      norm_num

theorem zipWith_setLsb_replicate_zero (xs : List Nat) (m : Nat)
    (hm : xs.length ≤ m) :
    List.zipWith setLsb xs (List.replicate m 0) =
      xs.map (fun v => setLsb v 0) := by
  induction xs generalizing m with
  | nil => simp
  | cons x xs ih =>
    cases m with
    | zero => simp at hm
    | succ m =>
      simp only [List.replicate_succ, List.zipWith_cons_cons, List.map_cons]
      rw [ih m (by simpa using hm)]

theorem getLast?_replicate_pos (p x : Nat) (hp : 1 ≤ p) :
    (List.replicate p x).getLast? = some x := by
  obtain ⟨q, rfl⟩ : ∃ q, p = q + 1 := ⟨p - 1, by omega⟩
  rw [List.replicate_succ']
  simp

theorem pkcs7unpad_some (d : List Nat) (p : Nat) (h : d.getLast? = some p) :
    pkcs7unpad d =
      if 1 ≤ p ∧ p ≤ 16 ∧ p ≤ d.length ∧
          (d.drop (d.length - p)).all (· = p) then
        .ok (d.take (d.length - p))
      else .error "Invalid padding bytes." := by
  unfold pkcs7unpad
  rw [h]

theorem pkcs7pad_shape (data : List Nat) :
    pkcs7pad data = data ++
      List.replicate (16 - data.length % 16) (16 - data.length % 16) := by
  unfold pkcs7pad
  rfl

/-- PKCS#7 unpadding inverts PKCS#7 padding. -/
theorem pkcs7_roundtrip (data : List Nat) :
    pkcs7unpad (pkcs7pad data) = .ok data := by
  have hp1 : 1 ≤ 16 - data.length % 16 := by omega
  have hp16 : 16 - data.length % 16 ≤ 16 := by omega
  have hlast : (pkcs7pad data).getLast? = some (16 - data.length % 16) := by
    rw [pkcs7pad_shape, List.getLast?_append,
        getLast?_replicate_pos _ _ hp1]
    rfl
  rw [pkcs7unpad_some _ _ hlast]
  have hlen : (pkcs7pad data).length = data.length + (16 - data.length % 16) := by
    rw [pkcs7pad_shape]
    simp
  have hsub : (pkcs7pad data).length - (16 - data.length % 16) = data.length := by
    omega
  have hdrop : (pkcs7pad data).drop data.length =
      List.replicate (16 - data.length % 16) (16 - data.length % 16) := by
    rw [pkcs7pad_shape, List.drop_left]
  have htake : (pkcs7pad data).take data.length = data := by
    rw [pkcs7pad_shape, List.take_left]
  rw [if_pos ?_]
  · rw [hsub, htake]
  · refine ⟨hp1, hp16, by omega, ?_⟩
    rw [hsub, hdrop]
    simp only [List.all_eq_true, decide_eq_true_eq]
    intro x hx
    exact List.eq_of_mem_replicate hx

/-- The padded plaintext has positive length, a multiple of the block size. -/
theorem pkcs7pad_length (data : List Nat) :
    (pkcs7pad data).length = data.length + (16 - data.length % 16) ∧
    (pkcs7pad data).length % 16 = 0 ∧ 0 < (pkcs7pad data).length := by
  rw [pkcs7pad_shape]
  simp only [List.length_append, List.length_replicate, true_and, and_true,
    eq_self_iff_true]
  omega

/-! ## Claim theorems -/

/-- Claim C6: for every non-empty plaintext `P` and non-empty password `pw`,
`decrypt(pw, encrypt(pw, P)) = P`, and the blob returned by `encrypt` is
`salt(16B) ++ iv(16B) ++ ciphertext` with the ciphertext length a positive
multiple of 16, so the blob has at least 48 > 32 bytes.  The AES-256-CBC
primitive and PBKDF2 are the `cryptography` library calls the source makes;
they enter as parameters, assumed to satisfy the library's contract
(`hcbc`: CBC preserves length on block-aligned input and decryption inverts
encryption under the same key and IV). -/
theorem C6_encryption_roundtrip
    (cbcEnc cbcDec : List Nat → List Nat → List Nat → List Nat)
    (derive : String → List Nat → List Nat)
    (hcbc : ∀ k v m, 16 ∣ m.length →
      (cbcEnc k v m).length = m.length ∧ cbcDec k v (cbcEnc k v m) = m)
    (password : String) (salt iv data : List Nat)
    (hpw : password ≠ "") (hdata : data ≠ [])
    (hsalt : salt.length = 16) (hiv : iv.length = 16) :
    ∃ ct,
      encrypt_data cbcEnc derive password salt iv data =
        .ok (salt ++ iv ++ ct) ∧
      ct.length % 16 = 0 ∧ 0 < ct.length ∧
      48 ≤ (salt ++ iv ++ ct).length ∧
      decrypt_data cbcDec derive password (salt ++ iv ++ ct) = .ok data := by
  obtain ⟨hplen, hpmod, hppos⟩ := pkcs7pad_length data
  have hdvd : 16 ∣ (pkcs7pad data).length := Nat.dvd_of_mod_eq_zero hpmod
  obtain ⟨hctlen, hctdec⟩ := hcbc (derive password salt) iv (pkcs7pad data) hdvd
  set ct := cbcEnc (derive password salt) iv (pkcs7pad data) with hct
  have hct16 : 16 ≤ ct.length := by
    rw [hctlen]
    omega
  have hblen : (salt ++ iv ++ ct).length = 32 + ct.length := by
    simp [hsalt, hiv]
    omega
  have htakeSalt : (salt ++ iv ++ ct).take 16 = salt := by
    rw [List.append_assoc, List.take_left' hsalt]
  have hdropIv : ((salt ++ iv ++ ct).drop 16).take 16 = iv := by
    rw [List.append_assoc, List.drop_left' hsalt, List.take_left' hiv]
  have hdropCt : (salt ++ iv ++ ct).drop 32 = ct := by
    apply List.drop_left'
    simp [hsalt, hiv]
  refine ⟨ct, ?_, ?_, ?_, ?_, ?_⟩
  · unfold encrypt_data
    rw [if_neg (by simp [hpw, hdata])]
  · rw [hctlen]
    exact hpmod
  · rw [hctlen]
    exact hppos
  · omega
  · simp only [decrypt_data]
    rw [if_neg (by omega), htakeSalt, hdropIv, hdropCt, hctdec]
    exact pkcs7_roundtrip data


/-- Witness for C6 at a concrete input, with the identity block transform
standing in for the (length-preserving, invertible) AES-CBC library call. -/
theorem C6_witness :
    ∃ ct,
      encrypt_data (fun _ _ m => m) (fun _ _ => []) "pw"
          (List.replicate 16 0) (List.replicate 16 1) [1, 2, 3] =
        .ok (List.replicate 16 0 ++ List.replicate 16 1 ++ ct) ∧
      ct.length % 16 = 0 ∧ 0 < ct.length ∧
      48 ≤ (List.replicate 16 0 ++ List.replicate 16 1 ++ ct).length ∧
      decrypt_data (fun _ _ m => m) (fun _ _ => []) "pw"
        (List.replicate 16 0 ++ List.replicate 16 1 ++ ct) = .ok [1, 2, 3] :=
  C6_encryption_roundtrip (fun _ _ m => m) (fun _ _ m => m) (fun _ _ => [])
    (fun _ _ _ _ => ⟨rfl, rfl⟩) "pw" (List.replicate 16 0)
    (List.replicate 16 1) [1, 2, 3]
    (by decide) (by decide) (by decide) (by decide)

/-- Claim C7: in the audio hide path with a password, encryption is applied
strictly before framing — the 32-bit length embedded in the carrier equals
the length of the `EncryptedBlob` produced by `encrypt_data` (which is
always strictly larger than the plaintext length) — and the audio extract
path with a password decrypts only after the framed bytes are decoded. -/
theorem C7_encrypt_before_framing
    (cbcEnc cbcDec : List Nat → List Nat → List Nat → List Nat)
    (derive : String → List Nat → List Nat)
    (hcbcLen : ∀ k v m, 16 ∣ m.length → (cbcEnc k v m).length = m.length)
    (password : String) (salt iv raw data blob : List Nat)
    (henc : encrypt_data cbcEnc derive password salt iv data = .ok blob)
    (hfit : (frameBits blob).length ≤ raw.length)
    (h32 : blob.length < 2 ^ 32) :
    bitsToNat
        (((hide_data_lsb_full cbcEnc derive (some password) salt iv raw
            data).fst.take 32).map (· % 2)) = blob.length ∧
    data.length < blob.length ∧
    (∀ pw raw2, extract_data_lsb_full cbcDec derive (some pw) raw2 =
      (extract_data_lsb raw2).bind (decrypt_data cbcDec derive pw)) := by
  obtain ⟨hplen, hpmod, hppos⟩ := pkcs7pad_length data
  have hblob : blob =
      salt ++ iv ++ cbcEnc (derive password salt) iv (pkcs7pad data) := by
    unfold encrypt_data at henc
    by_cases hc : password = "" ∨ data = []
    · rw [if_pos hc] at henc
      exact absurd henc (by simp)
    · rw [if_neg hc] at henc
      exact (Except.ok.inj henc).symm
  refine ⟨?_, ?_, ?_⟩
  · have hfull : hide_data_lsb_full cbcEnc derive (some password) salt iv raw
        data = hide_data_lsb raw blob := by
      simp only [hide_data_lsb_full]
      rw [henc]
    rw [hfull, List.map_take,
        hide_data_lsb_plane_audio raw blob hfit h32]
    have h32le : 32 ≤ (frameBits blob).length := by
      rw [frameBits_length]
      omega
    rw [List.take_append_of_le_length h32le, frameBits_eq,
        List.take_left' (header_length blob.length),
        bitsToNat_header blob.length h32]
  · have hctlen := hcbcLen (derive password salt) iv (pkcs7pad data)
      (Nat.dvd_of_mod_eq_zero hpmod)
    have hbl : blob.length =
        salt.length + iv.length + (pkcs7pad data).length := by
      rw [hblob]
      simp [hctlen]
      omega
    omega
  · intro pw raw2
    unfold extract_data_lsb_full
    cases h : extract_data_lsb raw2 with
    | error e => simp [Except.bind]
    | ok d => simp [Except.bind]

/-- Claim C1, amended: for every cover image and payload `P` with
`len(P) ≤ capacity(cover)` *and* `len(P) < 2^32` (the 4-byte length header
bound), hiding succeeds and extracting from the produced image returns
exactly `P`. -/
theorem C1_roundtrip (w h : Nat) (slots data : List Nat)
    (hslots : slots.length = w * h * 3)
    (hbytes : ∀ b ∈ data, b < 256)
    (hcap : (data.length : Int) ≤ calculate_image_capacity w h)
    (h32 : data.length < 2 ^ 32) :
    (hide_data w h slots data).snd = .ok () ∧
    extract_data w h (hide_data w h slots data).fst = .ok data :=
  image_roundtrip w h slots data hslots hbytes hcap h32

/-- Witness for C1: a 4×4 cover (48 slots, capacity 2) round-trips a
2-byte payload. -/
theorem C1_witness :
    (hide_data 4 4 (List.replicate 48 7) [65, 200]).snd = .ok () ∧
    extract_data 4 4 (hide_data 4 4 (List.replicate 48 7) [65, 200]).fst =
      .ok [65, 200] :=
  C1_roundtrip 4 4 (List.replicate 48 7) [65, 200]
    (by decide) (by decide) (by decide) (by decide)

/-- Counterexample to C1: the round-trip claim quantifies over *every*
payload with `len(P) ≤ capacity(cover)`, but `len(data).to_bytes(4,'big')`
raises `OverflowError` for `len(data) ≥ 2^32`, so on a cover with capacity
`3·2^32 − 4` a `2^32`-byte payload satisfies the claim's premise and hiding
nevertheless fails — no stego image is produced, hence extraction cannot
return `P`. -/
theorem C1_counterexample :
    ((List.replicate (2 ^ 32) 0 : List Nat).length : Int) ≤
      calculate_image_capacity (2 ^ 35) 1 ∧
    (hide_data (2 ^ 35) 1 (List.replicate (3 * 2 ^ 35) 1)
        (List.replicate (2 ^ 32) 0)).snd = .error "int too big to convert" := by
  have hlen : (List.replicate (2 ^ 32) (0 : Nat)).length = 2 ^ 32 :=
    List.length_replicate _ _
  have hcapv : calculate_image_capacity (2 ^ 35) 1 = 3 * 2 ^ 32 - 4 := by
    unfold calculate_image_capacity
    norm_num
  constructor
  · rw [hlen, hcapv]
    norm_num
  · unfold hide_data
    rw [if_neg (by rw [hlen, hcapv]; norm_num), if_pos (by rw [hlen])]

/-- Claim C2, amended: on the image path, hiding exactly `capacity(cover)`
bytes succeeds *provided the capacity is below the 32-bit header bound*,
hiding `capacity(cover)+1` bytes fails with the capacity error, and on both
the image and audio paths every failing hide leaves the carrier exactly as
it was — the checks run before any slot is mutated. -/
theorem C2_capacity_boundary (w h : Nat) (slots data raw adata : List Nat) :
    ((data.length : Int) = calculate_image_capacity w h →
      data.length < 2 ^ 32 → (hide_data w h slots data).snd = .ok ()) ∧
    ((data.length : Int) = calculate_image_capacity w h + 1 →
      (hide_data w h slots data).snd =
        .error ("Data too large: " ++ toString data.length ++
          " bytes exceeds capacity of " ++
          toString (calculate_image_capacity w h) ++ " bytes")) ∧
    (∀ e, (hide_data w h slots data).snd = .error e →
      (hide_data w h slots data).fst = slots) ∧
    (∀ e, (hide_data_lsb raw adata).snd = .error e →
      (hide_data_lsb raw adata).fst = raw) := by
  refine ⟨?_, ?_, ?_, ?_⟩
  · intro heq h32
    rw [hide_data_ok w h slots data (le_of_eq heq) h32]
  · intro heq
    unfold hide_data
    rw [if_pos (by omega)]
  · intro e he
    simp only [hide_data] at he ⊢
    by_cases h1 : (data.length : Int) > calculate_image_capacity w h
    · rw [if_pos h1]
    · rw [if_neg h1] at he ⊢
      by_cases h2 : 2 ^ 32 ≤ data.length
      · rw [if_pos h2]
      · rw [if_neg h2] at he
        simp at he
  · intro e he
    simp only [hide_data_lsb] at he ⊢
    by_cases h1 : 2 ^ 32 ≤ adata.length
    · rw [if_pos h1]
    · rw [if_neg h1] at he ⊢
      by_cases h2 : (frameBits adata ++
          List.replicate (raw.length - (frameBits adata).length) 0).length >
            raw.length
      · rw [if_pos h2]
      · rw [if_neg h2] at he
        simp at he

/-- Witness for C2: on a 4×4 cover (capacity 2), 2 bytes succeed, 3 bytes
fail with the capacity error, and a failing audio hide leaves the
1-byte carrier untouched. -/
theorem C2_witness :
    (hide_data 4 4 (List.replicate 48 7) (List.replicate 2 0)).snd =
      .ok () ∧
    (hide_data 4 4 (List.replicate 48 7) (List.replicate 3 0)).snd =
      .error ("Data too large: " ++
        toString (List.replicate 3 (0 : Nat)).length ++
        " bytes exceeds capacity of " ++
        toString (calculate_image_capacity 4 4) ++ " bytes") ∧
    (hide_data_lsb [1] (List.replicate 9 0)).fst = [1] :=
  ⟨(C2_capacity_boundary 4 4 (List.replicate 48 7) (List.replicate 2 0)
      [] []).1 (by decide) (by decide),
   (C2_capacity_boundary 4 4 (List.replicate 48 7) (List.replicate 3 0)
      [] []).2.1 (by decide),
   (C2_capacity_boundary 4 4 [] [] [1] (List.replicate 9 0)).2.2.2
      "Insufficient audio capacity to hide data" (by rfl)⟩

/-- Counterexample to C2: hiding a payload of *exactly*
`capacity(cover)` bytes does not always succeed: on a cover whose capacity
`3·2^32 − 4` exceeds the 32-bit header bound, the hide of a
capacity-sized payload raises `OverflowError` in `to_bytes` instead. -/
theorem C2_counterexample :
    ((List.replicate (3 * 2 ^ 32 - 4) 0 : List Nat).length : Int) =
      calculate_image_capacity (2 ^ 35) 1 ∧
    (hide_data (2 ^ 35) 1 (List.replicate (3 * 2 ^ 35) 1)
        (List.replicate (3 * 2 ^ 32 - 4) 0)).snd =
      .error "int too big to convert" := by
  have hlen : (List.replicate (3 * 2 ^ 32 - 4) (0 : Nat)).length =
      3 * 2 ^ 32 - 4 := List.length_replicate _ _
  have hcapv : calculate_image_capacity (2 ^ 35) 1 = 3 * 2 ^ 32 - 4 := by
    unfold calculate_image_capacity
    norm_num
  constructor
  · rw [hlen, hcapv]
    norm_num
  · unfold hide_data
    rw [if_neg (by rw [hlen, hcapv]; omega),
        if_pos (by rw [hlen]; norm_num)]

/-- Claim C3, amended: the image extraction rejects a decoded length above
the medium's capacity bound with the invalid-length error (the negative
case cannot arise), but the audio extraction performs no header validation
at all: on any nonempty carrier it returns a payload, silently truncated
when the declared length exceeds the available slots. -/
theorem C3_header_validation (w h : Nat) (slots raw : List Nat) :
    (slots ≠ [] → imgParsedLen slots > calculate_image_capacity w h →
      extract_data w h slots = .error "Invalid data length detected") ∧
    (raw ≠ [] → ∃ bs, extract_data_lsb raw = .ok bs) := by
  constructor
  · intro hne hgt
    simp only [extract_data]
    rw [if_neg hne, if_pos (Or.inr hgt)]
  · intro hne
    simp only [extract_data_lsb]
    rw [if_neg hne]
    exact ⟨_, rfl⟩

/-- Witness for C3: a 1×1 image whose header decodes to 7 (capacity −4) is
rejected; a 1-byte audio carrier still extracts successfully. -/
theorem C3_witness :
    extract_data 1 1 [1, 1, 1] = .error "Invalid data length detected" ∧
    (∃ bs, extract_data_lsb [0] = .ok bs) :=
  ⟨(C3_header_validation 1 1 [1, 1, 1] [0]).1 (by decide) (by decide),
   (C3_header_validation 1 1 [1, 1, 1] [0]).2 (by decide)⟩

/-- Counterexample to C3: a 40-byte audio carrier with every LSB set
declares the length `2^32 − 1`, which is negative under no reading but
vastly exceeds both the capacity bound and the available slots; the claim
says extraction must fail with `InvalidHeader`/`CorruptedData`, yet the
audio extraction returns the truncated payload `[255]`. -/
theorem C3_counterexample :
    bitsToNat (((List.replicate 40 1 : List Nat).take 32).map (· % 2)) =
      2 ^ 32 - 1 ∧
    extract_data_lsb (List.replicate 40 1) = .ok [255] := by
  have h1 : bitsToNat (((List.replicate 40 1 : List Nat).take 32).map (· % 2)) =
      2 ^ 32 - 1 := by decide
  refine ⟨h1, ?_⟩
  simp only [extract_data_lsb]
  rw [if_neg (by decide), h1,
      List.take_of_length_le (by norm_num)]
  have h2 : ((List.replicate 40 1 : List Nat).map (fun x => x % 2)).drop 32 =
      bitsOfBytes [255] := by decide
  rw [h2, chunkBytes_bitsOfBytes [255] (by decide)]

/-- Claim C9: in image extraction the 32-bit header value is always
nonnegative, and once the length passes the capacity check the flattened
bit sequence always holds at least `32 + length*8` bits, so the extracted
slice has exactly `length*8` bits; the `"Invalid data format"` branch is
unreachable for any genuine `w × h` RGB image. -/
theorem C9_image_header_safety (w h : Nat) (slots : List Nat)
    (hslots : slots.length = w * h * 3) :
    0 ≤ imgParsedLen slots ∧
    extract_data w h slots ≠ .error "Invalid data format" := by
  refine ⟨Int.natCast_nonneg _, ?_⟩
  intro hcontra
  simp only [extract_data] at hcontra
  by_cases h0 : slots = []
  · rw [if_pos h0] at hcontra
    exact absurd (Except.error.inj hcontra) (by decide)
  · rw [if_neg h0] at hcontra
    by_cases h1 : imgParsedLen slots < 0 ∨
        imgParsedLen slots > calculate_image_capacity w h
    · rw [if_pos h1] at hcontra
      exact absurd (Except.error.inj hcontra) (by decide)
    · rw [if_neg h1] at hcontra
      push_neg at h1
      obtain ⟨-, hle⟩ := h1
      have hcap_eq : calculate_image_capacity w h =
          ((slots.length / 8 : Nat) : Int) - 4 := by
        unfold calculate_image_capacity
        rw [hslots]
      rw [hcap_eq] at hle
      have htn : imgParsedLen slots = ((imgParsedLen slots).toNat : Int) :=
        (Int.toNat_of_nonneg (Int.natCast_nonneg _)).symm
      rw [htn] at hle
      have hdivmul : slots.length / 8 * 8 ≤ slots.length :=
        Nat.div_mul_le_self _ _
      have hfit : (imgParsedLen slots).toNat * 8 ≤ slots.length - 32 := by
        omega
      have hlen : ((( slots.map (· % 2)).drop 32).take
          ((imgParsedLen slots).toNat * 8)).length =
          (imgParsedLen slots).toNat * 8 := by
        rw [List.length_take, List.length_drop, List.length_map]
        omega
      rw [if_neg (by rw [hlen]; omega)] at hcontra
      exact absurd hcontra (by simp)

/-- Witness for C9 on a concrete 1×1 image. -/
theorem C9_witness :
    0 ≤ imgParsedLen [1, 1, 1] ∧
    extract_data 1 1 [1, 1, 1] ≠ .error "Invalid data format" :=
  C9_image_header_safety 1 1 [1, 1, 1] (by decide)

/-- Witness for C7 at a concrete input (identity block transform, 1-byte
plaintext, 48-byte blob, 416-slot audio carrier). -/
theorem C7_witness :
    bitsToNat
        (((hide_data_lsb_full (fun _ _ m => m) (fun _ _ => [])
            (some "p") (List.replicate 16 0) (List.replicate 16 1)
            (List.replicate 416 0) [5]).fst.take 32).map (· % 2)) =
      (List.replicate 16 0 ++ List.replicate 16 1 ++ pkcs7pad [5]).length ∧
    ([5] : List Nat).length <
      (List.replicate 16 0 ++ List.replicate 16 1 ++ pkcs7pad [5]).length ∧
    (∀ pw raw2, extract_data_lsb_full (fun _ _ m => m) (fun _ _ => [])
        (some pw) raw2 =
      (extract_data_lsb raw2).bind
        (decrypt_data (fun _ _ m => m) (fun _ _ => []) pw)) :=
  C7_encrypt_before_framing (fun _ _ m => m) (fun _ _ m => m)
    (fun _ _ => []) (fun _ _ _ _ => rfl) "p" (List.replicate 16 0)
    (List.replicate 16 1) (List.replicate 416 0) [5]
    (List.replicate 16 0 ++ List.replicate 16 1 ++ pkcs7pad [5])
    (by rfl) (by decide) (by decide)

/-- Claim C4, amended: when hiding framed data of `F` bytes, the first `F*8`
slots receive the frame bits, but the slots beyond the framed payload's bit
length do *not* keep their original byte values: both carriers' write loops
run over the zero-padded bit string, so every trailing slot has its LSB
cleared to 0 (upper bits preserved). -/
theorem C4_trailing_lsbs_zeroed (w h : Nat) (slots data raw : List Nat)
    (hslots : slots.length = w * h * 3)
    (hcapI : (data.length : Int) ≤ calculate_image_capacity w h)
    (hfitA : (frameBits data).length ≤ raw.length)
    (h32 : data.length < 2 ^ 32) :
    (hide_data w h slots data).fst.drop (frameBits data).length =
      (slots.drop (frameBits data).length).map (fun v => setLsb v 0) ∧
    (hide_data_lsb raw data).fst.drop (frameBits data).length =
      (raw.drop (frameBits data).length).map (fun v => setLsb v 0) := by
  have key : ∀ c : List Nat, (frameBits data).length ≤ c.length →
      (List.zipWith setLsb c
        (frameBits data ++
          List.replicate (c.length - (frameBits data).length) 0)).drop
            (frameBits data).length =
      (c.drop (frameBits data).length).map (fun v => setLsb v 0) := by
    intro c hfc
    rw [List.drop_zipWith, List.drop_left]
    apply zipWith_setLsb_replicate_zero
    rw [List.length_drop]
  constructor
  · have hcap' : (data.length : Int) ≤ ((w * h * 3 / 8 : Nat) : Int) - 4 := by
      unfold calculate_image_capacity at hcapI
      exact_mod_cast hcapI
    have hfitI : (frameBits data).length ≤ slots.length := by
      rw [frameBits_length, hslots]
      exact (cap_arith (w * h * 3) data.length hcap').1
    rw [hide_data_ok w h slots data hcapI h32]
    exact key slots hfitI
  · rw [hide_data_lsb_ok raw data hfitA h32]
    exact key raw hfitA

/-- Witness for C4 (amended) on a 4×4 cover and a 40-byte audio carrier
with the empty payload (frame = 32 bits). -/
theorem C4_witness :
    (hide_data 4 4 (List.replicate 48 1) []).fst.drop
        (frameBits ([] : List Nat)).length =
      ((List.replicate 48 1 : List Nat).drop
        (frameBits ([] : List Nat)).length).map (fun v => setLsb v 0) ∧
    (hide_data_lsb (List.replicate 40 1) []).fst.drop
        (frameBits ([] : List Nat)).length =
      ((List.replicate 40 1 : List Nat).drop
        (frameBits ([] : List Nat)).length).map (fun v => setLsb v 0) :=
  C4_trailing_lsbs_zeroed 4 4 (List.replicate 48 1) [] (List.replicate 40 1)
    (by decide) (by decide) (by decide) (by decide)

/-- Counterexample to C4: on a 4×4 all-ones cover with the empty payload
(framed length 4 bytes, 32 bits), slot 40 lies beyond the framed bit length
yet its byte value changes from 1 to 0 — trailing LSBs are zeroed, not left
unmodified. -/
theorem C4_counterexample :
    (hide_data 4 4 (List.replicate 48 1) []).snd = .ok () ∧
    (frameBits ([] : List Nat)).length = 32 ∧
    (List.replicate 48 1 : List Nat).get? 40 = some 1 ∧
    (hide_data 4 4 (List.replicate 48 1) []).fst.get? 40 = some 0 := by
  refine ⟨rfl, by decide, by decide, by decide⟩

/-- Claim C5: the bit sequence embedded into carrier LSBs is exactly the
serialization of `[32-bit big-endian length][payload bytes]`, each byte
MSB-first with byte order preserved (`frameBits`), and the framing is
identical for the image and audio carriers: each adapter writes the same
frame bit to the same slot index. -/
theorem C5_frame_format (w h : Nat) (slots data raw : List Nat)
    (hslots : slots.length = w * h * 3)
    (hcapI : (data.length : Int) ≤ calculate_image_capacity w h)
    (hfitA : (frameBits data).length ≤ raw.length)
    (h32 : data.length < 2 ^ 32) :
    frameBits data =
      bitsOfBytes (toBytesBE4 data.length) ++ bitsOfBytes data ∧
    ((hide_data w h slots data).fst.map (· % 2)).take
        (frameBits data).length = frameBits data ∧
    ((hide_data_lsb raw data).fst.map (· % 2)).take
        (frameBits data).length = frameBits data := by
  refine ⟨frameBits_eq data, ?_, ?_⟩
  · rw [hide_data_lsb_plane w h slots data hslots hcapI h32, List.take_left]
  · rw [hide_data_lsb_plane_audio raw data hfitA h32, List.take_left]

/-- Witness for C5: a 1-byte payload on a 4×4 image and a 40-byte audio
carrier. -/
theorem C5_witness :
    frameBits [255] =
      bitsOfBytes (toBytesBE4 ([255] : List Nat).length) ++
        bitsOfBytes [255] ∧
    ((hide_data 4 4 (List.replicate 48 1) [255]).fst.map (· % 2)).take
        (frameBits [255]).length = frameBits [255] ∧
    ((hide_data_lsb (List.replicate 40 2) [255]).fst.map (· % 2)).take
        (frameBits [255]).length = frameBits [255] :=
  C5_frame_format 4 4 (List.replicate 48 1) [255] (List.replicate 40 2)
    (by decide) (by decide) (by decide) (by decide)

/-- Claim C8, amended: the image detector takes a caller threshold (default
0.1) and returns the pair `(is_suspicious, deviation)` with
`deviation = |mean LSB − 0.5|` and `is_suspicious ⟺ deviation > threshold`;
the audio detector computes the same deviation but returns *only* the
boolean, with the threshold fixed at 0.1.  A carrier whose LSBs are all 1
yields deviation 0.5 and is flagged suspicious by both. -/
theorem C8_detection (slots raw : List Nat) (threshold : ℚ) (n : Nat)
    (hs : slots ≠ []) (hr : raw ≠ []) (hn : n ≠ 0) :
    detect_anomalies_adapter slots threshold =
      .ok (decide (imageDeviation slots > threshold),
        imageDeviation slots) ∧
    detect_anomalies_lsb raw = .ok (decide (audioDeviation raw > 1 / 10)) ∧
    imageDeviation (List.replicate n 1) = 1 / 2 ∧
    detect_anomalies (List.replicate n 1) (1 / 10) = (true, 1 / 2) ∧
    audioDeviation (List.replicate n 1) = 1 / 2 ∧
    detect_anomalies_lsb (List.replicate n 1) = .ok true := by
  have hrepl : ∀ m : Nat, m ≠ 0 →
      |((((List.replicate m 1 : List Nat).map (· % 2)).sum : ℕ) : ℚ) /
        ((List.replicate m 1 : List Nat).length : ℚ) - 1 / 2| = 1 / 2 := by
    intro m hm
    rw [List.map_replicate]
    have h12 : (1 : ℕ) % 2 = 1 := rfl
    rw [h12, List.sum_replicate, smul_eq_mul, mul_one,
        List.length_replicate,
        div_self (by exact_mod_cast hm : ((m : ℚ) ≠ 0))]
    norm_num
  have hidev : imageDeviation (List.replicate n 1) = 1 / 2 := by
    unfold imageDeviation
    exact hrepl n hn
  have hadev : audioDeviation (List.replicate n 1) = 1 / 2 := by
    unfold audioDeviation
    exact hrepl n hn
  refine ⟨?_, ?_, hidev, ?_, hadev, ?_⟩
  · unfold detect_anomalies_adapter detect_anomalies
    rw [if_neg hs]
  · unfold detect_anomalies_lsb
    rw [if_neg hr]
  · unfold detect_anomalies
    rw [hidev]
    norm_num
  · unfold detect_anomalies_lsb
    rw [if_neg (by
      intro hc
      have := congrArg List.length hc
      simp at this
      omega), hadev]
    norm_num

/-- Witness for C8 (amended) on concrete carriers. -/
theorem C8_witness :
    detect_anomalies_adapter [0, 1] (1 / 10) =
      .ok (decide (imageDeviation [0, 1] > 1 / 10), imageDeviation [0, 1]) ∧
    detect_anomalies_lsb [0, 1] =
      .ok (decide (audioDeviation [0, 1] > 1 / 10)) ∧
    imageDeviation (List.replicate 3 1) = 1 / 2 ∧
    detect_anomalies (List.replicate 3 1) (1 / 10) = (true, 1 / 2) ∧
    audioDeviation (List.replicate 3 1) = 1 / 2 ∧
    detect_anomalies_lsb (List.replicate 3 1) = .ok true :=
  C8_detection [0, 1] [0, 1] (1 / 10) 3
    (by decide) (by decide) (by decide)

/-- Counterexample to C8: the claim says *every* carrier and *every*
threshold yield the pair `(deviation > threshold, deviation)`; but the
audio detector accepts no threshold and returns no deviation — on a
carrier with deviation 1/4 it answers `true` although at the claim's
threshold 3/10 the flag would have to be `false` (1/4 ≤ 3/10). -/
theorem C8_counterexample :
    audioDeviation [1, 1, 1, 2] = 1 / 4 ∧
    detect_anomalies_lsb [1, 1, 1, 2] = .ok true ∧
    ¬((1 : ℚ) / 4 > 3 / 10) := by
  have hdev : audioDeviation [1, 1, 1, 2] = 1 / 4 := by
    unfold audioDeviation
    norm_num
  refine ⟨hdev, ?_, by norm_num⟩
  unfold detect_anomalies_lsb
  rw [if_neg (by decide), hdev]
  norm_num

/-- Claim C10: every failure of the image adapter's hide, extract and detect
operations — including the capacity and invalid-length errors those
functions raise themselves — is re-raised as the single type `StegoError`,
with the original condition preserved only inside the message string; a
`StegoError` carries nothing but that string, so the taxonomy's kinds are
not distinguishable as separate variants at the adapter interface. -/
theorem C10_single_error_type (w h : Nat) (slots data : List Nat)
    (threshold : ℚ) :
    (∀ e, (hide_data w h slots data).snd = .error e →
      hide_data_adapter w h slots data =
        .error ⟨"Failed to hide data: " ++ e⟩) ∧
    ((hide_data w h slots data).snd = .ok () →
      hide_data_adapter w h slots data =
        .ok (hide_data w h slots data).fst) ∧
    (∀ e, extract_data w h slots = .error e →
      extract_data_adapter w h slots =
        .error ⟨"Failed to extract data: " ++ e⟩) ∧
    (∀ d, extract_data w h slots = .ok d →
      extract_data_adapter w h slots = .ok d) ∧
    (slots = [] → ∃ s, detect_anomalies_adapter slots threshold =
      .error (StegoError.mk s)) ∧
    (∀ err : StegoError, err = ⟨err.msg⟩) := by
  refine ⟨?_, ?_, ?_, ?_, ?_, fun err => rfl⟩
  · intro e he
    unfold hide_data_adapter
    rcases hh : hide_data w h slots data with ⟨out, st⟩
    rw [hh] at he
    simp only at he
    rw [he]
  · intro hok
    unfold hide_data_adapter
    rcases hh : hide_data w h slots data with ⟨out, st⟩
    rw [hh] at hok
    simp only at hok
    rw [hok]
  · intro e he
    unfold extract_data_adapter
    rw [he]
  · intro d hd
    unfold extract_data_adapter
    rw [hd]
  · intro h0
    unfold detect_anomalies_adapter
    rw [if_pos h0]
    exact ⟨_, rfl⟩

/-- Witness for C10: the capacity failure on a 4×4 cover surfaces as a
`StegoError` whose message wraps the original condition. -/
theorem C10_witness :
    hide_data_adapter 4 4 (List.replicate 48 7) (List.replicate 3 0) =
      .error ⟨"Failed to hide data: " ++
        "Data too large: 3 bytes exceeds capacity of 2 bytes"⟩ ∧
    extract_data_adapter 1 1 [1, 1, 1] =
      .error ⟨"Failed to extract data: " ++ "Invalid data length detected"⟩ :=
  ⟨(C10_single_error_type 4 4 (List.replicate 48 7) (List.replicate 3 0)
      0).1 "Data too large: 3 bytes exceeds capacity of 2 bytes" (by rfl),
   (C10_single_error_type 1 1 [1, 1, 1] [] 0).2.2.1
      "Invalid data length detected" (by rfl)⟩

end Stego
